import Mathlib

/-
Verification of the gridded-increment application routine
`add_fv3_increments` (AerosolAnalysis, ush/python/pygfs/task/aero_analysis.py).

The Python routine is:

    for itile in range(1, self.task_config.ntiles + 1):
        inc_path = inc_file_tmpl.format(tilenum=itile)
        bkg_path = bkg_file_tmpl.format(tilenum=itile)
        with Dataset(inc_path, mode='r') as incfile, Dataset(bkg_path, mode='a') as rstfile:
            for vname in incvars:
                increment = incfile.variables[vname][:]
                bkg = rstfile.variables[vname][:]
                anl = bkg + increment
                rstfile.variables[vname][:] = anl[:]
                try:
                    rstfile.variables[vname].delncattr('checksum')
                except (AttributeError, RuntimeError):
                    pass  # checksum is missing, move on

The embedding models the filesystem as an association list from paths to
netCDF files, each file an association list from variable names to
variables.  A variable carries its shape, its numeric data (as integers:
the claims are about exact elementwise sums, not rounding), its optional
checksum attribute, its remaining metadata, and the behaviour of the
backend when `delncattr` is asked to delete the checksum attribute under
a storage-level failure (`delBroken`): the netCDF backend raises
`RuntimeError` when the attribute is absent, and `delBroken` records the
exception a broken storage layer would raise instead of deleting.

Python exceptions are modelled by the spec's error taxonomy
(`FileAccessError` for a failing `Dataset` open, `VariableNotFoundError`
for the `KeyError` of a missing variable, `ShapeMismatchError` for the
`ValueError` of an incompatible elementwise sum), plus `uncaught` for an
exception escaping the `try/except` around `delncattr`.  Each step
returns the state at the moment an exception is raised, since the `with`
blocks close (and hence persist) the background file on any exit.
-/

inductive ExcKind
  | attributeError
  | runtimeError
  | otherError
deriving DecidableEq

inductive Err
  | fileAccessError
  | variableNotFoundError
  | shapeMismatchError
  | uncaught (c : ExcKind)
deriving DecidableEq

/-- Exception kinds absorbed by the `except (AttributeError, RuntimeError)` clause. -/
def caughtExc : ExcKind → Bool
  | .attributeError => true
  | .runtimeError => true
  | .otherError => false

/-- A netCDF variable: array shape, flattened numeric data, optional
checksum attribute, the exception a storage-level failure of attribute
deletion would raise (none when deletion works normally), and the
remaining per-variable metadata. -/
structure NCVar where
  shape : List Nat
  data : List Int
  checksum : Option String
  delBroken : Option ExcKind
  meta : List (String × String)
deriving DecidableEq

/-- A netCDF file: association list from variable names to variables. -/
abbrev NCFile := List (String × NCVar)

/-- The filesystem: association list from paths to netCDF files. -/
abbrev FS := List (String × NCFile)

/-- Lookup in an association list (first matching key). -/
def lookupA {α : Type} : List (String × α) → String → Option α
  | [], _ => none
  | (k, a) :: rest, v => if k = v then some a else lookupA rest v

/-- Replace the value at a key in an association list (no-op when absent). -/
def setA {α : Type} : List (String × α) → String → α → List (String × α)
  | [], _, _ => []
  | (k, a) :: rest, v, x =>
    if k = v then (k, x) :: setA rest v x else (k, a) :: setA rest v x

/-- Behaviour of `Variable.delncattr('checksum')`: a broken storage layer
raises its recorded exception; otherwise a present attribute is removed
and an absent attribute makes the netCDF backend raise `RuntimeError`. -/
def delncattrChecksum (v : NCVar) : Except ExcKind NCVar :=
  match v.delBroken with
  | some c => .error c
  | none =>
    match v.checksum with
    | some _ => .ok { v with checksum := none }
    | none => .error .runtimeError

/-- Body of the inner loop of `add_fv3_increments` for one variable name:
read the increment array, read the background array, form the elementwise
sum, write it back, then attempt to delete the checksum attribute,
absorbing `AttributeError` and `RuntimeError`. -/
def processVar (incf : NCFile) (rst : NCFile) (vname : String) : NCFile × Option Err :=
  match lookupA incf vname with
  | none => (rst, some .variableNotFoundError)
  | some vinc =>
    match lookupA rst vname with
    | none => (rst, some .variableNotFoundError)
    | some vbkg =>
      if vbkg.shape = vinc.shape then
        match delncattrChecksum { vbkg with data := List.zipWith (· + ·) vbkg.data vinc.data } with
        | .ok cleaned =>
          (setA rst vname cleaned, none)
        | .error c =>
          if caughtExc c then
            (setA rst vname { vbkg with data := List.zipWith (· + ·) vbkg.data vinc.data }, none)
          else
            (setA rst vname { vbkg with data := List.zipWith (· + ·) vbkg.data vinc.data },
             some (.uncaught c))
      else (rst, some .shapeMismatchError)

/-- Inner loop of `add_fv3_increments` over the variable list, stopping at
the first raised exception and returning the background-file state at that
moment. -/
def processVars (incf : NCFile) (rst : NCFile) : List String → NCFile × Option Err
  | [] => (rst, none)
  | v :: vs =>
    match processVar incf rst v with
    | (rst1, none) => processVars incf rst1 vs
    | (rst1, some e) => (rst1, some e)

/-- Character-list prefix test used by the template substitution. -/
def matchesAt : List Char → List Char → Bool
  | [], _ => true
  | _ :: _, [] => false
  | p :: ps, c :: cs => p == c && matchesAt ps cs

/-- Placeholder of the tile-number field of the path templates. -/
def tileToken : List Char := "{tilenum}".data

/-- Fuel-indexed substitution of every occurrence of the tile placeholder. -/
def substTile (sub : List Char) : Nat → List Char → List Char
  | _, [] => []
  | 0, l => l
  | fuel + 1, c :: rest =>
    if matchesAt tileToken (c :: rest) then
      sub ++ substTile sub fuel (List.drop (tileToken.length - 1) rest)
    else
      c :: substTile sub fuel rest

/-- Python's `tmpl.format(tilenum=itile)`: replace each occurrence of the
tile placeholder by the decimal rendering of the tile number. -/
def formatTile (tmpl : String) (n : Nat) : String :=
  ⟨substTile (Nat.repr n).data tmpl.data.length tmpl.data⟩

/-- Body of the outer loop of `add_fv3_increments` for one tile: resolve
both templates, open the increment file (read-only) and the background
file (read-write) — a missing file raises `FileAccessError` — then run the
variable loop and persist the resulting background file on close. -/
def processTile (incTmpl bkgTmpl : String) (incvars : List String) (fs : FS) (itile : Nat) :
    FS × Option Err :=
  match lookupA fs (formatTile incTmpl itile) with
  | none => (fs, some .fileAccessError)
  | some incf =>
    match lookupA fs (formatTile bkgTmpl itile) with
    | none => (fs, some .fileAccessError)
    | some rstf =>
      match processVars incf rstf incvars with
      | (rst1, oe) => (setA fs (formatTile bkgTmpl itile) rst1, oe)

/-- Outer loop of `add_fv3_increments` over a list of tile numbers,
stopping at the first raised exception. -/
def applyTiles (incTmpl bkgTmpl : String) (incvars : List String) : FS → List Nat → FS × Option Err
  | fs, [] => (fs, none)
  | fs, t :: ts =>
    match processTile incTmpl bkgTmpl incvars fs t with
    | (fs1, none) => applyTiles incTmpl bkgTmpl incvars fs1 ts
    | (fs1, some e) => (fs1, some e)

/-- The routine `add_fv3_increments`: loop over tiles `1 .. ntiles`
(Python's `range(1, ntiles + 1)`). -/
def add_fv3_increments (ntiles : Nat) (incTmpl bkgTmpl : String) (incvars : List String)
    (fs : FS) : FS × Option Err :=
  applyTiles incTmpl bkgTmpl incvars fs (List.range' 1 ntiles)

/-- Final value of a background variable after a successful pass of the
inner loop body: data summed elementwise with the increment, the checksum
attribute gone when deletion works normally (removed when present, and the
absorbing of the backend's missing-attribute `RuntimeError` when absent),
and kept as it was when a storage-level deletion failure was absorbed. -/
def appliedVar (vbkg vinc : NCVar) : NCVar :=
  { vbkg with
    data := List.zipWith (· + ·) vbkg.data vinc.data
    checksum := match vbkg.delBroken with
      | none => none
      | some _ => vbkg.checksum }

/-- Condition under which the inner loop body completes one variable
without raising: the variable is present in both files, the shapes agree,
and any deletion failure is of an absorbed exception kind. -/
def varStepOk (incf rst : NCFile) (v : String) : Bool :=
  match lookupA incf v, lookupA rst v with
  | some vinc, some vbkg =>
    decide (vbkg.shape = vinc.shape) &&
      (match vbkg.delBroken with
       | none => true
       | some c => caughtExc c)
  | _, _ => false

/-- Pointwise description of the background file after a successful inner
loop over a duplicate-free variable list. -/
def appliedFileVar (incf rst : NCFile) (vs : List String) (u : String) : Option NCVar :=
  if u ∈ vs then
    match lookupA incf u, lookupA rst u with
    | some vinc, some vbkg => some (appliedVar vbkg vinc)
    | _, _ => none
  else lookupA rst u

/-- Condition under which one whole tile processes without raising,
stated on the filesystem before the tile is processed. -/
def tileOk (incTmpl bkgTmpl : String) (incvars : List String) (fs : FS) (t : Nat) : Bool :=
  match lookupA fs (formatTile incTmpl t), lookupA fs (formatTile bkgTmpl t) with
  | some incf, some rstf => incvars.all (fun v => varStepOk incf rstf v)
  | _, _ => false

/-- Disjointness of the file pairs owned by two tiles. -/
def tpDisj (incTmpl bkgTmpl : String) (a b : Nat) : Prop :=
  formatTile bkgTmpl a ≠ formatTile bkgTmpl b ∧
  formatTile bkgTmpl a ≠ formatTile incTmpl b ∧
  formatTile bkgTmpl b ≠ formatTile incTmpl a ∧
  formatTile incTmpl a ≠ formatTile incTmpl b

instance (incTmpl bkgTmpl : String) (a b : Nat) : Decidable (tpDisj incTmpl bkgTmpl a b) := by
  unfold tpDisj; infer_instance

/-
Concrete instances used to exhibit the behaviours on explicit inputs:
a two-tile filesystem in the layout the caller of `add_fv3_increments`
stages (an `aeroinc.`-prefixed increment file and a restart background
file per tile), plus small variants for the failure scenarios.
-/

/-- Increment path template of the concrete instances. -/
def itW : String := "aeroinc.tile{tilenum}.nc"

/-- Background path template of the concrete instances. -/
def btW : String := "bkg.tile{tilenum}.nc"

/-- Name of the tracer variable of the concrete instances. -/
def vTracer : String := "tracer"

/-- Name of a requested variable absent from the increment file. -/
def vHum : String := "humidity"

/-- Name of a background variable outside the increment list. -/
def vOther : String := "temp"

/-- A checksum attribute value. -/
def csW : String := "abc123"

/-- A metadata key. -/
def mKey : String := "units"

/-- A metadata value. -/
def mVal : String := "ppm"

/-- Variable list of the concrete instances. -/
def varsW : List String := [vTracer]

/-- Tile-1 increment tracer. -/
def incVar1 : NCVar :=
  { shape := [2], data := [5, -5], checksum := none, delBroken := none, meta := [] }

/-- Tile-1 background tracer, with a checksum attribute and metadata. -/
def bkgVar1 : NCVar :=
  { shape := [2], data := [10, 20], checksum := some csW, delBroken := none,
    meta := [(mKey, mVal)] }

/-- A background variable outside the increment list. -/
def othVar : NCVar :=
  { shape := [1], data := [42], checksum := some csW, delBroken := none, meta := [] }

/-- Tile-2 increment tracer. -/
def incVar2 : NCVar :=
  { shape := [1], data := [7], checksum := none, delBroken := none, meta := [] }

/-- Tile-2 background tracer, with no checksum attribute. -/
def bkgVar2 : NCVar :=
  { shape := [1], data := [3], checksum := none, delBroken := none, meta := [] }

/-- Tile-1 increment file. -/
def incF1 : NCFile := [(vTracer, incVar1)]

/-- Tile-1 background file. -/
def bkgF1 : NCFile := [(vTracer, bkgVar1), (vOther, othVar)]

/-- Tile-2 increment file. -/
def incF2 : NCFile := [(vTracer, incVar2)]

/-- Tile-2 background file. -/
def bkgF2 : NCFile := [(vTracer, bkgVar2)]

/-- The two-tile filesystem. -/
def fsW : FS :=
  [(formatTile itW 1, incF1), (formatTile btW 1, bkgF1),
   (formatTile itW 2, incF2), (formatTile btW 2, bkgF2)]

/-- Tile-1 background tracer after one application. -/
def bkgVar1A : NCVar :=
  { shape := [2], data := [15, 15], checksum := none, delBroken := none,
    meta := [(mKey, mVal)] }

/-- Tile-2 background tracer after one application. -/
def bkgVar2A : NCVar :=
  { shape := [1], data := [10], checksum := none, delBroken := none, meta := [] }

/-- The two-tile filesystem after one application. -/
def fsW1 : FS :=
  [(formatTile itW 1, incF1),
   (formatTile btW 1, [(vTracer, bkgVar1A), (vOther, othVar)]),
   (formatTile itW 2, incF2),
   (formatTile btW 2, [(vTracer, bkgVar2A)])]

/-- Tile-1 background tracer after two applications. -/
def bkgVar1B : NCVar :=
  { shape := [2], data := [20, 10], checksum := none, delBroken := none,
    meta := [(mKey, mVal)] }

/-- Tile-2 background tracer after two applications. -/
def bkgVar2B : NCVar :=
  { shape := [1], data := [17], checksum := none, delBroken := none, meta := [] }

/-- The two-tile filesystem after two applications. -/
def fsW2 : FS :=
  [(formatTile itW 1, incF1),
   (formatTile btW 1, [(vTracer, bkgVar1B), (vOther, othVar)]),
   (formatTile itW 2, incF2),
   (formatTile btW 2, [(vTracer, bkgVar2B)])]

/-- A two-tile filesystem whose tile-2 increment file is missing. -/
def fsC : FS :=
  [(formatTile itW 1, incF1), (formatTile btW 1, bkgF1), (formatTile btW 2, bkgF2)]

/-- The missing-file filesystem after tile 1 alone is processed. -/
def fsC1 : FS :=
  [(formatTile itW 1, incF1),
   (formatTile btW 1, [(vTracer, bkgVar1A), (vOther, othVar)]),
   (formatTile btW 2, bkgF2)]

/-- An increment tracer of shape incompatible with its background. -/
def incVarS : NCVar :=
  { shape := [3], data := [1, 2, 3], checksum := none, delBroken := none, meta := [] }

/-- A background tracer of shape incompatible with its increment. -/
def bkgVarS : NCVar :=
  { shape := [2], data := [8, 9], checksum := some csW, delBroken := none, meta := [] }

/-- One-tile increment file of the shape-mismatch scenario. -/
def incFS : NCFile := [(vTracer, incVarS)]

/-- One-tile background file of the shape-mismatch scenario. -/
def bkgFS : NCFile := [(vTracer, bkgVarS)]

/-- One-tile filesystem of the shape-mismatch scenario. -/
def fsS : FS := [(formatTile itW 1, incFS), (formatTile btW 1, bkgFS)]

/-- An increment tracer for the broken-deletion scenario. -/
def incVarX : NCVar :=
  { shape := [1], data := [4], checksum := none, delBroken := none, meta := [] }

/-- A background tracer whose checksum deletion raises an exception kind
outside `AttributeError` and `RuntimeError`. -/
def bkgVarX : NCVar :=
  { shape := [1], data := [1], checksum := some csW, delBroken := some .otherError,
    meta := [] }

/-- Increment file of the broken-deletion scenario. -/
def incFX : NCFile := [(vTracer, incVarX)]

/-- Background file of the broken-deletion scenario. -/
def bkgFX : NCFile := [(vTracer, bkgVarX)]

/-- Lookup after an in-place replacement. -/
theorem lookupA_setA {α : Type} (l : List (String × α)) (v : String) (x : α) (u : String) :
    lookupA (setA l v x) u =
      if u = v then (lookupA l v).map (fun _ => x) else lookupA l u := by
  induction l with
  | nil => by_cases h : u = v <;> simp [lookupA, setA, h]
  | cons p rest ih =>
    obtain ⟨k, a⟩ := p
    by_cases hkv : k = v
    · subst hkv
      by_cases huk : u = k
      · subst huk; simp [lookupA, setA]
      · simp [lookupA, setA, huk, Ne.symm huk, ih]
    · by_cases hku : k = u
      · have huv : u ≠ v := fun h => hkv (hku.trans h)
        simp [lookupA, setA, hkv, hku, huv]
      · by_cases huv : u = v
        · subst huv
          simp [lookupA, setA, hkv, hku, ih]
        · simp [lookupA, setA, hkv, hku, huv, ih]

/-- In-place replacements at distinct keys commute. -/
theorem setA_comm {α : Type} (l : List (String × α)) {p q : String} (h : p ≠ q) (a b : α) :
    setA (setA l p a) q b = setA (setA l q b) p a := by
  induction l with
  | nil => simp [setA]
  | cons e rest ih =>
    obtain ⟨k, x⟩ := e
    by_cases hkp : k = p
    · subst hkp
      simp [setA, h, ih]
    · by_cases hkq : k = q
      · subst hkq
        simp [setA, Ne.symm h, hkp, ih]
      · simp [setA, hkp, hkq, ih]

/-- Replacing a key leaves the list of keys unchanged (used to transfer
membership facts). -/
theorem lookupA_isSome_setA {α : Type} (l : List (String × α)) (v : String) (x : α) (u : String) :
    (lookupA (setA l v x) u).isSome = (lookupA l u).isSome := by
  rw [lookupA_setA]
  by_cases h : u = v
  · subst h; cases lookupA l u <;> simp
  · simp [h]

/-- Success of the inner loop body for one variable, with the exact
resulting background file. -/
theorem processVar_ok {incf rst : NCFile} {v : String} {vinc vbkg : NCVar}
    (hvi : lookupA incf v = some vinc) (hvb : lookupA rst v = some vbkg)
    (hsh : vbkg.shape = vinc.shape)
    (hdel : ∀ c, vbkg.delBroken = some c → caughtExc c = true) :
    processVar incf rst v = (setA rst v (appliedVar vbkg vinc), none) := by
  simp only [processVar, hvi, hvb]
  rw [if_pos hsh]
  cases hdb : vbkg.delBroken with
  | none =>
    cases hcs : vbkg.checksum with
    | none => simp [delncattrChecksum, caughtExc, appliedVar, hdb, hcs]
    | some s => simp [delncattrChecksum, appliedVar, hdb, hcs]
  | some c =>
    simp [delncattrChecksum, appliedVar, hdb, hdel c hdb]

/-- The inner loop body raises `VariableNotFoundError` and leaves the
background file untouched when the variable is absent from either file. -/
theorem processVar_missing {incf rst : NCFile} {v : String}
    (h : lookupA incf v = none ∨ lookupA rst v = none) :
    processVar incf rst v = (rst, some .variableNotFoundError) := by
  unfold processVar
  rcases h with h | h
  · rw [h]
  · cases hvi : lookupA incf v with
    | none => rfl
    | some vinc => rw [h]

/-- The inner loop body raises `ShapeMismatchError` before any write when
the two arrays disagree in shape. -/
theorem processVar_shape_mismatch {incf rst : NCFile} {v : String} {vinc vbkg : NCVar}
    (hvi : lookupA incf v = some vinc) (hvb : lookupA rst v = some vbkg)
    (hsh : vbkg.shape ≠ vinc.shape) :
    processVar incf rst v = (rst, some .shapeMismatchError) := by
  unfold processVar
  rw [hvi, hvb]
  simp [hsh]

/-- When attribute deletion raises an exception kind that the
`except (AttributeError, RuntimeError)` clause does not absorb, the
exception propagates, but the summed data has already been written. -/
theorem processVar_uncaught {incf rst : NCFile} {v : String} {vinc vbkg : NCVar} {c : ExcKind}
    (hvi : lookupA incf v = some vinc) (hvb : lookupA rst v = some vbkg)
    (hsh : vbkg.shape = vinc.shape)
    (hdel : delncattrChecksum { vbkg with data := List.zipWith (· + ·) vbkg.data vinc.data }
      = .error c)
    (hc : caughtExc c = false) :
    processVar incf rst v =
      (setA rst v { vbkg with data := List.zipWith (· + ·) vbkg.data vinc.data },
       some (.uncaught c)) := by
  simp only [processVar, hvi, hvb]
  rw [if_pos hsh, hdel]
  simp [hc]

/-- The inner loop body touches no variable other than the one it
processes, in every outcome. -/
theorem processVar_frame (incf rst : NCFile) (v u : String) (h : u ≠ v) :
    lookupA (processVar incf rst v).1 u = lookupA rst u := by
  cases hvi : lookupA incf v with
  | none => rw [processVar_missing (Or.inl hvi)]
  | some vinc =>
    cases hvb : lookupA rst v with
    | none => rw [processVar_missing (Or.inr hvb)]
    | some vbkg =>
      by_cases hsh : vbkg.shape = vinc.shape
      · by_cases hok : ∀ c, vbkg.delBroken = some c → caughtExc c = true
        · rw [processVar_ok hvi hvb hsh hok]
          simp [lookupA_setA, h]
        · push_neg at hok
          obtain ⟨c, hdb, hc⟩ := hok
          have hc' : caughtExc c = false := by
            revert hc; cases caughtExc c <;> simp
          have hd : delncattrChecksum
              { vbkg with data := List.zipWith (· + ·) vbkg.data vinc.data }
              = .error c := by
            unfold delncattrChecksum; simp [hdb]
          rw [processVar_uncaught hvi hvb hsh hd hc']
          simp [lookupA_setA, h]
      · rw [processVar_shape_mismatch hvi hvb hsh]

/-- The inner loop body preserves every per-variable field other than the
data array and the checksum attribute, at every key and in every outcome. -/
theorem processVar_pres {β : Type} (f : NCVar → β)
    (hf : ∀ vb d cs, f { vb with data := d, checksum := cs } = f vb)
    (incf rst : NCFile) (v u : String) :
    (lookupA (processVar incf rst v).1 u).map f = (lookupA rst u).map f := by
  by_cases h : u = v
  · subst h
    cases hvi : lookupA incf u with
    | none => rw [processVar_missing (Or.inl hvi)]
    | some vinc =>
      cases hvb : lookupA rst u with
      | none => rw [processVar_missing (Or.inr hvb)]; simp [hvb]
      | some vbkg =>
        by_cases hsh : vbkg.shape = vinc.shape
        · by_cases hok : ∀ c, vbkg.delBroken = some c → caughtExc c = true
          · rw [processVar_ok hvi hvb hsh hok]
            simp only [lookupA_setA, if_pos rfl, hvb, Option.map_some']
            exact congrArg some (hf vbkg _ _)
          · push_neg at hok
            obtain ⟨c, hdb, hc⟩ := hok
            have hc' : caughtExc c = false := by
              revert hc; cases caughtExc c <;> simp
            have hd : delncattrChecksum
                { vbkg with data := List.zipWith (· + ·) vbkg.data vinc.data }
                = .error c := by
              unfold delncattrChecksum; simp [hdb]
            rw [processVar_uncaught hvi hvb hsh hd hc']
            simp only [lookupA_setA, if_pos rfl, hvb, Option.map_some']
            exact congrArg some (hf vbkg _ _)
        · rw [processVar_shape_mismatch hvi hvb hsh]; simp [hvb]
  · rw [processVar_frame incf rst v u h]

/-- The success condition of the inner loop body is invariant under
running the body on any (other or same) variable. -/
theorem varStepOk_pres (incf rst : NCFile) (w v : String) :
    varStepOk incf (processVar incf rst w).1 v = varStepOk incf rst v := by
  have h := processVar_pres (fun x => (x.shape, x.delBroken))
    (fun vb d cs => rfl) incf rst w v
  unfold varStepOk
  cases h1 : lookupA (processVar incf rst w).1 v with
  | none =>
    cases h2 : lookupA rst v with
    | none => cases hvi : lookupA incf v <;> rfl
    | some y => rw [h1, h2] at h; simp at h
  | some x =>
    cases h2 : lookupA rst v with
    | none => rw [h1, h2] at h; simp at h
    | some y =>
      rw [h1, h2] at h
      simp only [Option.map_some', Option.some.injEq, Prod.mk.injEq] at h
      obtain ⟨hs, hd⟩ := h
      cases hvi : lookupA incf v with
      | none => rfl
      | some vinc => simp only [hs, hd]

/-- Unpacking of the success condition of the inner loop body. -/
theorem varStepOk_elim {incf rst : NCFile} {v : String} (h : varStepOk incf rst v = true) :
    ∃ vinc vbkg, lookupA incf v = some vinc ∧ lookupA rst v = some vbkg ∧
      vbkg.shape = vinc.shape ∧ ∀ c, vbkg.delBroken = some c → caughtExc c = true := by
  unfold varStepOk at h
  cases hvi : lookupA incf v with
  | none =>
    rw [hvi] at h
    cases hvb : lookupA rst v <;> rw [hvb] at h <;> simp at h
  | some vinc =>
    cases hvb : lookupA rst v with
    | none => rw [hvi, hvb] at h; simp at h
    | some vbkg =>
      rw [hvi, hvb] at h
      simp only [Bool.and_eq_true, decide_eq_true_eq] at h
      obtain ⟨hsh, hdel⟩ := h
      refine ⟨vinc, vbkg, rfl, rfl, hsh, ?_⟩
      intro c hdb
      rw [hdb] at hdel
      exact hdel

/-- A variable step that raises no exception satisfies the success
condition. -/
theorem processVar_snd_none (incf rst : NCFile) (v : String)
    (h : (processVar incf rst v).2 = none) : varStepOk incf rst v = true := by
  cases hvi : lookupA incf v with
  | none => rw [processVar_missing (Or.inl hvi)] at h; simp at h
  | some vinc =>
    cases hvb : lookupA rst v with
    | none => rw [processVar_missing (Or.inr hvb)] at h; simp at h
    | some vbkg =>
      by_cases hsh : vbkg.shape = vinc.shape
      · by_cases hok : ∀ c, vbkg.delBroken = some c → caughtExc c = true
        · unfold varStepOk
          rw [hvi, hvb]
          have hdt : decide (vbkg.shape = vinc.shape) = true := decide_eq_true hsh
          simp only [hdt, Bool.true_and]
          cases hdb : vbkg.delBroken with
          | none => rfl
          | some c => exact hok c hdb
        · push_neg at hok
          obtain ⟨c, hdb, hc⟩ := hok
          have hc' : caughtExc c = false := by
            revert hc; cases caughtExc c <;> simp
          have hd : delncattrChecksum
              { vbkg with data := List.zipWith (· + ·) vbkg.data vinc.data }
              = .error c := by
            unfold delncattrChecksum; simp [hdb]
          rw [processVar_uncaught hvi hvb hsh hd hc'] at h
          simp at h
      · rw [processVar_shape_mismatch hvi hvb hsh] at h; simp at h

/-- The inner loop touches no variable outside the processed list, in
every outcome. -/
theorem processVars_frame (incf : NCFile) (vs : List String) :
    ∀ rst : NCFile, ∀ u, u ∉ vs →
      lookupA (processVars incf rst vs).1 u = lookupA rst u := by
  induction vs with
  | nil => intro rst u _; rfl
  | cons w ws ih =>
    intro rst u h
    simp only [List.mem_cons, not_or] at h
    obtain ⟨hw, hws⟩ := h
    rcases hp : processVar incf rst w with ⟨rst1, oe⟩
    have hfr : lookupA rst1 u = lookupA rst u := by
      have h1 := processVar_frame incf rst w u hw
      rw [hp] at h1
      exact h1
    cases oe with
    | none =>
      simp only [processVars, hp]
      rw [ih rst1 u hws, hfr]
    | some e =>
      simp only [processVars, hp]
      exact hfr

/-- If the whole inner loop raises no exception, every listed variable
satisfied the success condition on the original background file. -/
theorem processVars_ok_all (incf : NCFile) (vs : List String) :
    ∀ rst : NCFile, (processVars incf rst vs).2 = none →
      ∀ v ∈ vs, varStepOk incf rst v = true := by
  induction vs with
  | nil => intro rst _ v hv; exact absurd hv (List.not_mem_nil v)
  | cons w ws ih =>
    intro rst h v hv
    rcases hp : processVar incf rst w with ⟨rst1, oe⟩
    simp only [processVars, hp] at h
    cases oe with
    | some e => simp at h
    | none =>
      rcases List.mem_cons.mp hv with rfl | hv'
      · exact processVar_snd_none incf rst v (by rw [hp])
      · have h2 := ih rst1 h v hv'
        have hp1 : (processVar incf rst w).1 = rst1 := by rw [hp]
        rw [← hp1, varStepOk_pres] at h2
        exact h2

/-- Pointwise characterization of a successful inner loop over a
duplicate-free variable list: every listed variable holds its elementwise
sum with the checksum removed or kept as `appliedVar` describes, and
every other variable is untouched. -/
theorem processVars_char (incf : NCFile) (vs : List String) :
    ∀ rst : NCFile, vs.Nodup → (∀ v ∈ vs, varStepOk incf rst v = true) →
      (processVars incf rst vs).2 = none ∧
      ∀ u, lookupA (processVars incf rst vs).1 u = appliedFileVar incf rst vs u := by
  induction vs with
  | nil =>
    intro rst _ _
    exact ⟨rfl, fun u => by simp [processVars, appliedFileVar]⟩
  | cons w ws ih =>
    intro rst hnd h
    obtain ⟨vinc, vbkg, hvi, hvb, hsh, hdel⟩ :=
      varStepOk_elim (h w (List.mem_cons_self w ws))
    have hpv : processVar incf rst w = (setA rst w (appliedVar vbkg vinc), none) :=
      processVar_ok hvi hvb hsh hdel
    have hndw : w ∉ ws := (List.nodup_cons.mp hnd).1
    have hndws : ws.Nodup := (List.nodup_cons.mp hnd).2
    have hok1 : ∀ v ∈ ws, varStepOk incf (setA rst w (appliedVar vbkg vinc)) v = true := by
      intro v hvws
      have hp1 : (processVar incf rst w).1 = setA rst w (appliedVar vbkg vinc) := by rw [hpv]
      rw [← hp1, varStepOk_pres]
      exact h v (List.mem_cons_of_mem w hvws)
    obtain ⟨hsnd, hchar⟩ := ih (setA rst w (appliedVar vbkg vinc)) hndws hok1
    have hstep : processVars incf rst (w :: ws)
        = processVars incf (setA rst w (appliedVar vbkg vinc)) ws := by
      simp only [processVars, hpv]
    refine ⟨by rw [hstep]; exact hsnd, ?_⟩
    intro u
    rw [hstep, hchar u]
    unfold appliedFileVar
    by_cases hu : u ∈ ws
    · have huw : u ≠ w := fun e => hndw (e ▸ hu)
      have hl : lookupA (setA rst w (appliedVar vbkg vinc)) u = lookupA rst u := by
        rw [lookupA_setA]; simp [huw]
      rw [hl]
      simp [hu, List.mem_cons]
    · by_cases huw : u = w
      · subst huw
        have hl : lookupA (setA rst u (appliedVar vbkg vinc)) u
            = some (appliedVar vbkg vinc) := by
          rw [lookupA_setA]; simp [hvb]
        simp [hu, hl, List.mem_cons, hvi, hvb]
      · have hl : lookupA (setA rst w (appliedVar vbkg vinc)) u = lookupA rst u := by
          rw [lookupA_setA]; simp [huw]
        simp [hu, huw, hl, List.mem_cons]

/-- Splitting the inner loop after a successful first half. -/
theorem processVars_append_ok (incf : NCFile) (l1 l2 : List String) :
    ∀ rst rst1 : NCFile, processVars incf rst l1 = (rst1, none) →
      processVars incf rst (l1 ++ l2) = processVars incf rst1 l2 := by
  induction l1 with
  | nil =>
    intro rst rst1 h
    have : rst = rst1 := congrArg Prod.fst h
    rw [List.nil_append, this]
  | cons w ws ih =>
    intro rst rst1 h
    rcases hp : processVar incf rst w with ⟨rstw, oe⟩
    cases oe with
    | none =>
      have h' : processVars incf rstw ws = (rst1, none) := by
        have := h
        simp only [processVars, hp] at this
        exact this
      have : processVars incf rst ((w :: ws) ++ l2) = processVars incf rstw (ws ++ l2) := by
        rw [List.cons_append]
        simp only [processVars, hp]
      rw [this, ih rstw rst1 h']
    | some e =>
      exfalso
      simp only [processVars, hp, Prod.mk.injEq] at h
      exact Option.noConfusion h.2

/-- Opening a tile whose increment or background file is missing raises
`FileAccessError` and changes nothing. -/
theorem processTile_files_missing {incTmpl bkgTmpl : String} {incvars : List String}
    {fs : FS} {t : Nat}
    (h : lookupA fs (formatTile incTmpl t) = none ∨
         lookupA fs (formatTile bkgTmpl t) = none) :
    processTile incTmpl bkgTmpl incvars fs t = (fs, some .fileAccessError) := by
  unfold processTile
  rcases h with h | h
  · rw [h]
  · cases hvi : lookupA fs (formatTile incTmpl t) with
    | none => rfl
    | some incf => rw [h]

/-- A tile whose two files are present runs the inner loop and persists
the resulting background file, propagating the inner loop's exception. -/
theorem processTile_run {incTmpl bkgTmpl : String} {incvars : List String}
    {fs : FS} {t : Nat} {incf rstf : NCFile}
    (hinc : lookupA fs (formatTile incTmpl t) = some incf)
    (hbkg : lookupA fs (formatTile bkgTmpl t) = some rstf) :
    processTile incTmpl bkgTmpl incvars fs t =
      (setA fs (formatTile bkgTmpl t) (processVars incf rstf incvars).1,
       (processVars incf rstf incvars).2) := by
  simp only [processTile, hinc, hbkg]

/-- Processing one tile touches no file other than that tile's background
file, in every outcome. -/
theorem processTile_frame (incTmpl bkgTmpl : String) (incvars : List String)
    (fs : FS) (t : Nat) (p : String) (h : p ≠ formatTile bkgTmpl t) :
    lookupA (processTile incTmpl bkgTmpl incvars fs t).1 p = lookupA fs p := by
  cases hinc : lookupA fs (formatTile incTmpl t) with
  | none => rw [processTile_files_missing (Or.inl hinc)]
  | some incf =>
    cases hbkg : lookupA fs (formatTile bkgTmpl t) with
    | none => rw [processTile_files_missing (Or.inr hbkg)]
    | some rstf =>
      rw [processTile_run hinc hbkg]
      simp [lookupA_setA, h]

/-- The tile loop touches no file outside the background files of the
tiles it was asked to process, in every outcome. -/
theorem applyTiles_frame (incTmpl bkgTmpl : String) (incvars : List String) (ts : List Nat) :
    ∀ fs : FS, ∀ p, p ∉ ts.map (formatTile bkgTmpl) →
      lookupA (applyTiles incTmpl bkgTmpl incvars fs ts).1 p = lookupA fs p := by
  induction ts with
  | nil => intro fs p _; rfl
  | cons t ts ih =>
    intro fs p h
    simp only [List.map_cons, List.mem_cons, not_or] at h
    obtain ⟨hpt, hpts⟩ := h
    rcases hp : processTile incTmpl bkgTmpl incvars fs t with ⟨fs1, oe⟩
    have hfr : lookupA fs1 p = lookupA fs p := by
      have h1 := processTile_frame incTmpl bkgTmpl incvars fs t p hpt
      rw [hp] at h1
      exact h1
    cases oe with
    | none =>
      simp only [applyTiles, hp]
      rw [ih fs1 p hpts, hfr]
    | some e =>
      simp only [applyTiles, hp]
      exact hfr

/-- Splitting the tile loop after a successful first half. -/
theorem applyTiles_append_ok (incTmpl bkgTmpl : String) (incvars : List String)
    (l1 l2 : List Nat) :
    ∀ fs fs1 : FS, applyTiles incTmpl bkgTmpl incvars fs l1 = (fs1, none) →
      applyTiles incTmpl bkgTmpl incvars fs (l1 ++ l2)
        = applyTiles incTmpl bkgTmpl incvars fs1 l2 := by
  induction l1 with
  | nil =>
    intro fs fs1 h
    have : fs = fs1 := congrArg Prod.fst h
    rw [List.nil_append, this]
  | cons t ts ih =>
    intro fs fs1 h
    rcases hp : processTile incTmpl bkgTmpl incvars fs t with ⟨fst, oe⟩
    cases oe with
    | none =>
      have h' : applyTiles incTmpl bkgTmpl incvars fst ts = (fs1, none) := by
        have := h
        simp only [applyTiles, hp] at this
        exact this
      have hh : applyTiles incTmpl bkgTmpl incvars fs ((t :: ts) ++ l2)
          = applyTiles incTmpl bkgTmpl incvars fst (ts ++ l2) := by
        rw [List.cons_append]
        simp only [applyTiles, hp]
      rw [hh, ih fst fs1 h']
    | some e =>
      exfalso
      simp only [applyTiles, hp, Prod.mk.injEq] at h
      exact Option.noConfusion h.2

/-- A tile loop that stops with an exception at the head of the remaining
tiles stops the whole loop with that exception and state. -/
theorem applyTiles_cons_err (incTmpl bkgTmpl : String) (incvars : List String)
    (fs fs1 : FS) (t : Nat) (ts : List Nat) (e : Err)
    (h : processTile incTmpl bkgTmpl incvars fs t = (fs1, some e)) :
    applyTiles incTmpl bkgTmpl incvars fs (t :: ts) = (fs1, some e) := by
  simp only [applyTiles, h]

/-- Unpacking of a tile step that raises no exception. -/
theorem processTile_snd_none_elim {incTmpl bkgTmpl : String} {incvars : List String}
    {fs fs1 : FS} {t : Nat}
    (h : processTile incTmpl bkgTmpl incvars fs t = (fs1, none)) :
    ∃ incf rstf, lookupA fs (formatTile incTmpl t) = some incf ∧
      lookupA fs (formatTile bkgTmpl t) = some rstf ∧
      (processVars incf rstf incvars).2 = none ∧
      fs1 = setA fs (formatTile bkgTmpl t) (processVars incf rstf incvars).1 := by
  cases hinc : lookupA fs (formatTile incTmpl t) with
  | none =>
    rw [processTile_files_missing (Or.inl hinc)] at h
    exact Option.noConfusion (congrArg Prod.snd h)
  | some incf =>
    cases hbkg : lookupA fs (formatTile bkgTmpl t) with
    | none =>
      rw [processTile_files_missing (Or.inr hbkg)] at h
      exact Option.noConfusion (congrArg Prod.snd h)
    | some rstf =>
      rw [processTile_run hinc hbkg] at h
      exact ⟨incf, rstf, rfl, rfl, congrArg Prod.snd h, (congrArg Prod.fst h).symm⟩

/-- Symmetry of tile-pair disjointness. -/
theorem tpDisj_symm {incTmpl bkgTmpl : String} : Symmetric (tpDisj incTmpl bkgTmpl) := by
  intro a b h
  obtain ⟨h1, h2, h3, h4⟩ := h
  exact ⟨h1.symm, h3, h2, h4.symm⟩

/-- Characterization of a successful tile loop over pairwise-disjoint
tiles: each tile's files were found as they were in the initial
filesystem, its inner loop succeeded on those initial contents, and the
final filesystem holds the resulting background file for that tile. -/
theorem applyTiles_ok_char (incTmpl bkgTmpl : String) (incvars : List String)
    (ts : List Nat) :
    ∀ fs fs' : FS, ts.Pairwise (tpDisj incTmpl bkgTmpl) →
      applyTiles incTmpl bkgTmpl incvars fs ts = (fs', none) →
      ∀ t ∈ ts, ∃ incf rstf,
        lookupA fs (formatTile incTmpl t) = some incf ∧
        lookupA fs (formatTile bkgTmpl t) = some rstf ∧
        (processVars incf rstf incvars).2 = none ∧
        lookupA fs' (formatTile bkgTmpl t) = some (processVars incf rstf incvars).1 := by
  induction ts with
  | nil => intro fs fs' _ _ t ht; exact absurd ht (List.not_mem_nil t)
  | cons s rest ih =>
    intro fs fs' hd h t ht
    rcases hp : processTile incTmpl bkgTmpl incvars fs s with ⟨fs1, oe⟩
    cases oe with
    | some e =>
      rw [applyTiles_cons_err incTmpl bkgTmpl incvars fs fs1 s rest e hp] at h
      exact Option.noConfusion (congrArg Prod.snd h)
    | none =>
      have hrest : applyTiles incTmpl bkgTmpl incvars fs1 rest = (fs', none) := by
        have hh := h
        simp only [applyTiles, hp] at hh
        exact hh
      obtain ⟨incf, rstf, hinc, hbkg, hsnd, hfs1⟩ := processTile_snd_none_elim hp
      have hdhead : ∀ r ∈ rest, tpDisj incTmpl bkgTmpl s r := (List.pairwise_cons.mp hd).1
      have hdrest : rest.Pairwise (tpDisj incTmpl bkgTmpl) := (List.pairwise_cons.mp hd).2
      rcases List.mem_cons.mp ht with rfl | ht'
      · refine ⟨incf, rstf, hinc, hbkg, hsnd, ?_⟩
        have hnot : formatTile bkgTmpl t ∉ rest.map (formatTile bkgTmpl) := by
          intro hmem
          obtain ⟨r, hr, he⟩ := List.mem_map.mp hmem
          exact absurd he.symm (hdhead r hr).1
        have hfr := applyTiles_frame incTmpl bkgTmpl incvars rest fs1
          (formatTile bkgTmpl t) hnot
        rw [hrest] at hfr
        rw [hfr, hfs1, lookupA_setA]
        simp [hbkg]
      · have hddis := hdhead t ht'
        obtain ⟨incf2, rstf2, hinc2, hbkg2, hsnd2, hfin2⟩ := ih fs1 fs' hdrest hrest t ht'
        have e1 : lookupA fs1 (formatTile incTmpl t) = lookupA fs (formatTile incTmpl t) := by
          rw [hfs1, lookupA_setA, if_neg (Ne.symm hddis.2.1)]
        have e2 : lookupA fs1 (formatTile bkgTmpl t) = lookupA fs (formatTile bkgTmpl t) := by
          rw [hfs1, lookupA_setA, if_neg (Ne.symm hddis.1)]
        rw [e1] at hinc2
        rw [e2] at hbkg2
        exact ⟨incf2, rstf2, hinc2, hbkg2, hsnd2, hfin2⟩

/-- Two successful steps on tiles with disjoint file pairs commute. -/
theorem processTile_comm {incTmpl bkgTmpl : String} {incvars : List String}
    {fs fsa fsab : FS} {a b : Nat}
    (hd : tpDisj incTmpl bkgTmpl a b)
    (ha : processTile incTmpl bkgTmpl incvars fs a = (fsa, none))
    (hb : processTile incTmpl bkgTmpl incvars fsa b = (fsab, none)) :
    ∃ fsb, processTile incTmpl bkgTmpl incvars fs b = (fsb, none) ∧
      processTile incTmpl bkgTmpl incvars fsb a = (fsab, none) := by
  obtain ⟨h1, h2, h3, h4⟩ := hd
  obtain ⟨ia, ra, hia, hra, hsa, hfsa⟩ := processTile_snd_none_elim ha
  obtain ⟨ib, rb, hib, hrb, hsb, hfsab⟩ := processTile_snd_none_elim hb
  have eib : lookupA fs (formatTile incTmpl b) = some ib := by
    rw [hfsa, lookupA_setA, if_neg (Ne.symm h2)] at hib
    exact hib
  have erb : lookupA fs (formatTile bkgTmpl b) = some rb := by
    rw [hfsa, lookupA_setA, if_neg (Ne.symm h1)] at hrb
    exact hrb
  refine ⟨setA fs (formatTile bkgTmpl b) (processVars ib rb incvars).1, ?_, ?_⟩
  · rw [processTile_run eib erb, hsb]
  · have eia : lookupA (setA fs (formatTile bkgTmpl b) (processVars ib rb incvars).1)
        (formatTile incTmpl a) = some ia := by
      rw [lookupA_setA, if_neg (Ne.symm h3)]
      exact hia
    have era : lookupA (setA fs (formatTile bkgTmpl b) (processVars ib rb incvars).1)
        (formatTile bkgTmpl a) = some ra := by
      rw [lookupA_setA, if_neg h1]
      exact hra
    rw [processTile_run eia era, hsa, hfsab, hfsa, setA_comm fs (Ne.symm h1)]

/-- A successful tile loop over pairwise-disjoint tiles may be run in any
order: every permutation succeeds and produces the same final
filesystem. -/
theorem applyTiles_perm (incTmpl bkgTmpl : String) (incvars : List String)
    {ts1 ts2 : List Nat} (hperm : ts1.Perm ts2) :
    ∀ fs fs' : FS, ts1.Pairwise (tpDisj incTmpl bkgTmpl) →
      applyTiles incTmpl bkgTmpl incvars fs ts1 = (fs', none) →
      applyTiles incTmpl bkgTmpl incvars fs ts2 = (fs', none) := by
  induction hperm with
  | nil => intro fs fs' _ h; exact h
  | cons x p ih =>
    intro fs fs' hd h
    rcases hp : processTile incTmpl bkgTmpl incvars fs x with ⟨fs1, oe⟩
    cases oe with
    | some e =>
      rw [applyTiles_cons_err incTmpl bkgTmpl incvars fs fs1 x _ e hp] at h
      exact Option.noConfusion (congrArg Prod.snd h)
    | none =>
      have h' := h
      simp only [applyTiles, hp] at h'
      have hres := ih fs1 fs' (List.pairwise_cons.mp hd).2 h'
      simp only [applyTiles, hp]
      exact hres
  | swap x y l =>
    intro fs fs' hd h
    rcases hp1 : processTile incTmpl bkgTmpl incvars fs y with ⟨fsy, oe1⟩
    cases oe1 with
    | some e =>
      rw [applyTiles_cons_err incTmpl bkgTmpl incvars fs fsy y _ e hp1] at h
      exact Option.noConfusion (congrArg Prod.snd h)
    | none =>
      have h1 : applyTiles incTmpl bkgTmpl incvars fsy (x :: l) = (fs', none) := by
        have hh := h
        simp only [applyTiles, hp1] at hh
        exact hh
      rcases hp2 : processTile incTmpl bkgTmpl incvars fsy x with ⟨fsyx, oe2⟩
      cases oe2 with
      | some e =>
        rw [applyTiles_cons_err incTmpl bkgTmpl incvars fsy fsyx x l e hp2] at h1
        exact Option.noConfusion (congrArg Prod.snd h1)
      | none =>
        have h2 : applyTiles incTmpl bkgTmpl incvars fsyx l = (fs', none) := by
          have hh := h1
          simp only [applyTiles, hp2] at hh
          exact hh
        have hdyx : tpDisj incTmpl bkgTmpl y x :=
          (List.pairwise_cons.mp hd).1 x (List.mem_cons_self x l)
        obtain ⟨fsx, hb1, hb2⟩ := processTile_comm hdyx hp1 hp2
        simp only [applyTiles, hb1, hb2]
        exact h2
  | trans p12 p23 ih1 ih2 =>
    intro fs fs' hd h
    have hd2 := (p12.pairwise_iff (fun hxy => tpDisj_symm hxy)).mp hd
    exact ih2 fs fs' hd2 (ih1 fs fs' hd h)

/-- Adding the same increment twice doubles its contribution. -/
theorem zipWith_add_twice (a b : List Int) :
    List.zipWith (· + ·) (List.zipWith (· + ·) a b) b
      = List.zipWith (fun x y => x + 2 * y) a b := by
  induction a generalizing b with
  | nil => simp
  | cons x xs ih =>
    cases b with
    | nil => simp
    | cons y ys =>
      simp only [List.zipWith, ih, List.cons.injEq, and_true]
      ring

/-- A run of `add_fv3_increments` whose tile `t` raises inside the inner
loop ends at tile `t` with the partially updated background file of that
tile persisted. -/
theorem add_stop_at_tile
    {n : Nat} {incTmpl bkgTmpl : String} {incvars : List String} {fs fs1 : FS}
    {t : Nat} {pre post : List Nat} {incf rstf R : NCFile} {e : Err}
    (hsplit : List.range' 1 n = pre ++ t :: post)
    (hpre : applyTiles incTmpl bkgTmpl incvars fs pre = (fs1, none))
    (hincf : lookupA fs1 (formatTile incTmpl t) = some incf)
    (hrstf : lookupA fs1 (formatTile bkgTmpl t) = some rstf)
    (hv : processVars incf rstf incvars = (R, some e)) :
    add_fv3_increments n incTmpl bkgTmpl incvars fs
      = (setA fs1 (formatTile bkgTmpl t) R, some e) := by
  unfold add_fv3_increments
  rw [hsplit, applyTiles_append_ok incTmpl bkgTmpl incvars pre (t :: post) fs fs1 hpre]
  have hptile : processTile incTmpl bkgTmpl incvars fs1 t
      = (setA fs1 (formatTile bkgTmpl t) R, some e) := by
    rw [processTile_run hincf hrstf, hv]
  exact applyTiles_cons_err incTmpl bkgTmpl incvars fs1 _ t post e hptile

/-- Inner loop with a successful duplicate-free first part and a step
that raises (without changing the file) on the next variable. -/
theorem processVars_fail
    {incf rstf : NCFile} {vpre : List String} {v : String} {vpost : List String} {e : Err}
    (hnd : vpre.Nodup)
    (hok : ∀ w ∈ vpre, varStepOk incf rstf w = true)
    (hstop : processVar incf (processVars incf rstf vpre).1 v
        = ((processVars incf rstf vpre).1, some e)) :
    processVars incf rstf (vpre ++ v :: vpost)
      = ((processVars incf rstf vpre).1, some e) := by
  obtain ⟨hsnd, _⟩ := processVars_char incf vpre rstf hnd hok
  have hpair : processVars incf rstf vpre = ((processVars incf rstf vpre).1, none) :=
    Prod.ext rfl hsnd
  rw [processVars_append_ok incf vpre (v :: vpost) rstf _ hpair]
  simp only [processVars, hstop]

/-- Claim C1 (additivity): after a successful run of
`add_fv3_increments` over pairwise-disjoint tile file pairs and a
duplicate-free variable list, the background array of every listed
variable on every tile equals the elementwise sum of its prior value and
the increment array. -/
theorem add_fv3_increments_additivity
    {n : Nat} {incTmpl bkgTmpl : String} {incvars : List String} {fs fs' : FS}
    {t : Nat} {v : String} {incf rstf : NCFile} {vinc vbkg : NCVar}
    (hd : (List.range' 1 n).Pairwise (tpDisj incTmpl bkgTmpl))
    (hnd : incvars.Nodup)
    (hrun : add_fv3_increments n incTmpl bkgTmpl incvars fs = (fs', none))
    (ht : t ∈ List.range' 1 n) (hv : v ∈ incvars)
    (hincf : lookupA fs (formatTile incTmpl t) = some incf)
    (hrstf : lookupA fs (formatTile bkgTmpl t) = some rstf)
    (hvi : lookupA incf v = some vinc) (hvb : lookupA rstf v = some vbkg) :
    ∃ F, lookupA fs' (formatTile bkgTmpl t) = some F ∧
      (lookupA F v).map NCVar.data = some (List.zipWith (· + ·) vbkg.data vinc.data) := by
  obtain ⟨incf2, rstf2, hinc2, hbkg2, hsnd2, hfin2⟩ :=
    applyTiles_ok_char incTmpl bkgTmpl incvars (List.range' 1 n) fs fs' hd hrun t ht
  rw [hincf] at hinc2
  rw [hrstf] at hbkg2
  injection hinc2 with he1
  injection hbkg2 with he2
  subst he1
  subst he2
  have hall := processVars_ok_all incf incvars rstf hsnd2
  obtain ⟨-, hchar⟩ := processVars_char incf incvars rstf hnd hall
  refine ⟨(processVars incf rstf incvars).1, hfin2, ?_⟩
  rw [hchar v]
  unfold appliedFileVar
  simp [hv, hvi, hvb, appliedVar]

/-- Claim C2 (checksum removal tolerance): the inner loop body succeeds
and writes the correct elementwise sum whenever any deletion failure is
of an absorbed exception kind — in particular when the checksum
attribute is simply absent — and when deletion works normally, the
checksum attribute is gone after the summed value is written. -/
theorem processVar_checksum_tolerance
    {incf rst : NCFile} {v : String} {vinc vbkg : NCVar}
    (hvi : lookupA incf v = some vinc) (hvb : lookupA rst v = some vbkg)
    (hsh : vbkg.shape = vinc.shape)
    (hdel : vbkg.delBroken = none ∨ ∃ c, vbkg.delBroken = some c ∧ caughtExc c = true) :
    processVar incf rst v = (setA rst v (appliedVar vbkg vinc), none) ∧
    (appliedVar vbkg vinc).data = List.zipWith (· + ·) vbkg.data vinc.data ∧
    (vbkg.delBroken = none → (appliedVar vbkg vinc).checksum = none) := by
  have hok : ∀ c, vbkg.delBroken = some c → caughtExc c = true := by
    intro c hc
    rcases hdel with h | ⟨c', hc', hcc⟩
    · rw [h] at hc; exact Option.noConfusion hc
    · rw [hc'] at hc
      injection hc with he
      rw [← he]
      exact hcc
  refine ⟨processVar_ok hvi hvb hsh hok, rfl, ?_⟩
  intro h0
  simp [appliedVar, h0]

/-- Claim C3 (within-tile partial update on missing variable): when a
variable of the list is absent from the increment or the background file
of tile `t`, the run raises `VariableNotFoundError` at that variable and
stops; the tile's background file is persisted with the variables earlier
in the list updated to their sums (`appliedFileVar` over the prefix) and
the absent variable, the later variables and every other variable
untouched. -/
theorem add_fv3_increments_missing_var
    {n : Nat} {incTmpl bkgTmpl : String} {incvars : List String} {fs fs1 : FS}
    {t : Nat} {pre post : List Nat} {incf rstf : NCFile}
    {vpre : List String} {v : String} {vpost : List String}
    (hsplit : List.range' 1 n = pre ++ t :: post)
    (hpre : applyTiles incTmpl bkgTmpl incvars fs pre = (fs1, none))
    (hincf : lookupA fs1 (formatTile incTmpl t) = some incf)
    (hrstf : lookupA fs1 (formatTile bkgTmpl t) = some rstf)
    (hvars : incvars = vpre ++ v :: vpost)
    (hnd : vpre.Nodup)
    (hok : ∀ w ∈ vpre, varStepOk incf rstf w = true)
    (hmiss : lookupA incf v = none ∨ lookupA rstf v = none) :
    add_fv3_increments n incTmpl bkgTmpl incvars fs
      = (setA fs1 (formatTile bkgTmpl t) (processVars incf rstf vpre).1,
         some .variableNotFoundError) ∧
    ∀ u, lookupA (processVars incf rstf vpre).1 u = appliedFileVar incf rstf vpre u := by
  obtain ⟨hsnd, hchar⟩ := processVars_char incf vpre rstf hnd hok
  have hvnot : v ∉ vpre := by
    intro hvin
    obtain ⟨vinc, vbkg, hvi, hvb, -, -⟩ := varStepOk_elim (hok v hvin)
    rcases hmiss with h | h
    · rw [h] at hvi; exact Option.noConfusion hvi
    · rw [h] at hvb; exact Option.noConfusion hvb
  have hstop : processVar incf (processVars incf rstf vpre).1 v
      = ((processVars incf rstf vpre).1, some .variableNotFoundError) := by
    apply processVar_missing
    rcases hmiss with h | h
    · exact Or.inl h
    · refine Or.inr ?_
      rw [hchar v]
      unfold appliedFileVar
      simp [hvnot, h]
  subst hvars
  exact ⟨add_stop_at_tile hsplit hpre hincf hrstf (processVars_fail hnd hok hstop), hchar⟩

/-- Claim C6 (shape mismatch failure): when the background and increment
arrays of a listed variable disagree in shape on tile `t`, the run raises
`ShapeMismatchError` at that variable before writing anything to it: the
variable still holds its original contents in the persisted file, earlier
variables hold their sums and later variables are untouched. -/
theorem add_fv3_increments_shape_mismatch
    {n : Nat} {incTmpl bkgTmpl : String} {incvars : List String} {fs fs1 : FS}
    {t : Nat} {pre post : List Nat} {incf rstf : NCFile}
    {vpre : List String} {v : String} {vpost : List String} {vinc vbkg : NCVar}
    (hsplit : List.range' 1 n = pre ++ t :: post)
    (hpre : applyTiles incTmpl bkgTmpl incvars fs pre = (fs1, none))
    (hincf : lookupA fs1 (formatTile incTmpl t) = some incf)
    (hrstf : lookupA fs1 (formatTile bkgTmpl t) = some rstf)
    (hvars : incvars = vpre ++ v :: vpost)
    (hnd : vpre.Nodup)
    (hok : ∀ w ∈ vpre, varStepOk incf rstf w = true)
    (hvi : lookupA incf v = some vinc)
    (hvb : lookupA rstf v = some vbkg)
    (hshape : vbkg.shape ≠ vinc.shape) :
    add_fv3_increments n incTmpl bkgTmpl incvars fs
      = (setA fs1 (formatTile bkgTmpl t) (processVars incf rstf vpre).1,
         some .shapeMismatchError) ∧
    lookupA (processVars incf rstf vpre).1 v = some vbkg ∧
    ∀ u, lookupA (processVars incf rstf vpre).1 u = appliedFileVar incf rstf vpre u := by
  obtain ⟨hsnd, hchar⟩ := processVars_char incf vpre rstf hnd hok
  have hvnot : v ∉ vpre := by
    intro hvin
    obtain ⟨vinc', vbkg', hvi', hvb', hsh', -⟩ := varStepOk_elim (hok v hvin)
    rw [hvi] at hvi'
    rw [hvb] at hvb'
    injection hvi' with he1
    injection hvb' with he2
    rw [← he1, ← he2] at hsh'
    exact hshape hsh'
  have hRv : lookupA (processVars incf rstf vpre).1 v = some vbkg := by
    rw [hchar v]
    unfold appliedFileVar
    simp [hvnot, hvb]
  have hstop := processVar_shape_mismatch hvi hRv hshape
  subst hvars
  exact ⟨add_stop_at_tile hsplit hpre hincf hrstf (processVars_fail hnd hok hstop),
    hRv, hchar⟩

/-- Claim C5 (cross-tile partial completion on missing file): when tile
`t`'s increment or background file is missing, the run fails immediately
with `FileAccessError` and no retry: the final state is exactly the state
after the earlier tiles, so their background files remain updated, and
every file other than the earlier tiles' background files — in particular
every file of tile `t` and of the later tiles — is untouched. -/
theorem add_fv3_increments_missing_file
    {n : Nat} {incTmpl bkgTmpl : String} {incvars : List String} {fs fs1 : FS}
    {t : Nat} {pre post : List Nat}
    (hsplit : List.range' 1 n = pre ++ t :: post)
    (hpre : applyTiles incTmpl bkgTmpl incvars fs pre = (fs1, none))
    (hmiss : lookupA fs1 (formatTile incTmpl t) = none ∨
             lookupA fs1 (formatTile bkgTmpl t) = none) :
    add_fv3_increments n incTmpl bkgTmpl incvars fs = (fs1, some .fileAccessError) ∧
    ∀ p, p ∉ pre.map (formatTile bkgTmpl) → lookupA fs1 p = lookupA fs p := by
  constructor
  · unfold add_fv3_increments
    rw [hsplit, applyTiles_append_ok incTmpl bkgTmpl incvars pre (t :: post) fs fs1 hpre]
    exact applyTiles_cons_err incTmpl bkgTmpl incvars fs1 fs1 t post _
      (processTile_files_missing hmiss)
  · intro p hp
    have hfr := applyTiles_frame incTmpl bkgTmpl incvars pre fs p hp
    rw [hpre] at hfr
    exact hfr

/-- Claim C4 (non-interference): after a successful run, on every tile
the background variables outside the list are equal to their prior values
(data, shape, checksum and all metadata included), and for the listed
variables every field other than the data array and the checksum
attribute — shape and the remaining metadata — is unchanged. -/
theorem add_fv3_increments_noninterference
    {n : Nat} {incTmpl bkgTmpl : String} {incvars : List String} {fs fs' : FS}
    {t : Nat} {incf rstf : NCFile}
    (hd : (List.range' 1 n).Pairwise (tpDisj incTmpl bkgTmpl))
    (hnd : incvars.Nodup)
    (hrun : add_fv3_increments n incTmpl bkgTmpl incvars fs = (fs', none))
    (ht : t ∈ List.range' 1 n)
    (hincf : lookupA fs (formatTile incTmpl t) = some incf)
    (hrstf : lookupA fs (formatTile bkgTmpl t) = some rstf) :
    ∃ F, lookupA fs' (formatTile bkgTmpl t) = some F ∧
      (∀ u, u ∉ incvars → lookupA F u = lookupA rstf u) ∧
      (∀ u, (lookupA F u).map NCVar.meta = (lookupA rstf u).map NCVar.meta ∧
            (lookupA F u).map NCVar.shape = (lookupA rstf u).map NCVar.shape) := by
  obtain ⟨incf2, rstf2, hinc2, hbkg2, hsnd2, hfin2⟩ :=
    applyTiles_ok_char incTmpl bkgTmpl incvars (List.range' 1 n) fs fs' hd hrun t ht
  rw [hincf] at hinc2
  rw [hrstf] at hbkg2
  injection hinc2 with he1
  injection hbkg2 with he2
  subst he1
  subst he2
  have hall := processVars_ok_all incf incvars rstf hsnd2
  obtain ⟨-, hchar⟩ := processVars_char incf incvars rstf hnd hall
  refine ⟨(processVars incf rstf incvars).1, hfin2, ?_, ?_⟩
  · intro u hu
    rw [hchar u]
    unfold appliedFileVar
    simp [hu]
  · intro u
    rw [hchar u]
    unfold appliedFileVar
    by_cases hu : u ∈ incvars
    · obtain ⟨vinc, vbkg, hvi, hvb, -, -⟩ := varStepOk_elim (hall u hu)
      simp [hu, hvi, hvb, appliedVar]
    · simp [hu]

/-- Claim C7 (increment file immutability): in every execution, including
executions that raise, the only files `add_fv3_increments` can change are
the background files of its tiles; in particular, when no increment path
coincides with a background path, every increment file is unchanged. -/
theorem add_fv3_increments_increment_readonly
    {n : Nat} {incTmpl bkgTmpl : String} {incvars : List String} {fs : FS}
    (hro : ∀ t ∈ List.range' 1 n,
      formatTile incTmpl t ∉ (List.range' 1 n).map (formatTile bkgTmpl)) :
    (∀ p, p ∉ (List.range' 1 n).map (formatTile bkgTmpl) →
      lookupA (add_fv3_increments n incTmpl bkgTmpl incvars fs).1 p = lookupA fs p) ∧
    ∀ t ∈ List.range' 1 n,
      lookupA (add_fv3_increments n incTmpl bkgTmpl incvars fs).1 (formatTile incTmpl t)
        = lookupA fs (formatTile incTmpl t) := by
  constructor
  · intro p hp
    exact applyTiles_frame incTmpl bkgTmpl incvars (List.range' 1 n) fs p hp
  · intro t ht
    exact applyTiles_frame incTmpl bkgTmpl incvars (List.range' 1 n) fs
      (formatTile incTmpl t) (hro t ht)

/-- Claim C8 (amended; tile-order independence of successful runs): when
the tiles own pairwise-disjoint file pairs and the sequential run of
`add_fv3_increments` completes without error, processing the tiles in any
permutation of `1 .. ntiles` also completes without error and yields the
same final state of all files. -/
theorem add_fv3_increments_tile_order
    {n : Nat} {incTmpl bkgTmpl : String} {incvars : List String} {fs fs' : FS}
    {ts : List Nat}
    (hd : (List.range' 1 n).Pairwise (tpDisj incTmpl bkgTmpl))
    (hperm : ts.Perm (List.range' 1 n))
    (hrun : add_fv3_increments n incTmpl bkgTmpl incvars fs = (fs', none)) :
    applyTiles incTmpl bkgTmpl incvars fs ts = (fs', none) :=
  applyTiles_perm incTmpl bkgTmpl incvars hperm.symm fs fs' hd hrun

/-- Doubling and single application differ as soon as some increment
entry in range of both arrays is nonzero. -/
theorem zipWith_double_ne (a b : List Int)
    (h : ∃ i, ∃ _ : i < a.length, ∃ h2 : i < b.length, b.get ⟨i, h2⟩ ≠ 0) :
    List.zipWith (fun x y => x + 2 * y) a b ≠ List.zipWith (· + ·) a b := by
  induction a generalizing b with
  | nil => obtain ⟨i, h1, -, -⟩ := h; simp at h1
  | cons x xs ih =>
    cases b with
    | nil => obtain ⟨i, -, h2, -⟩ := h; simp at h2
    | cons y ys =>
      obtain ⟨i, h1, h2, hnz⟩ := h
      cases i with
      | zero =>
        intro he
        simp only [List.zipWith, List.cons.injEq] at he
        have hy : y = 0 := by
          have := he.1
          omega
        exact hnz hy
      | succ j =>
        intro he
        simp only [List.zipWith, List.cons.injEq] at he
        have hj1 : j < xs.length := by simpa using h1
        have hj2 : j < ys.length := by simpa using h2
        exact ih ys ⟨j, hj1, hj2, hnz⟩ he.2

/-- Claim C9 (non-idempotence): two successful runs of
`add_fv3_increments` with the same increment files leave every listed
variable at its original background value plus twice the increment; with
at least one nonzero increment entry, this differs from the value after a
single run — the effect is doubled, not idempotent. -/
theorem add_fv3_increments_not_idempotent
    {n : Nat} {incTmpl bkgTmpl : String} {incvars : List String} {fs fs1 fs2 : FS}
    {t : Nat} {v : String} {incf rstf : NCFile} {vinc vbkg : NCVar}
    (hd : (List.range' 1 n).Pairwise (tpDisj incTmpl bkgTmpl))
    (hnd : incvars.Nodup)
    (hrun1 : add_fv3_increments n incTmpl bkgTmpl incvars fs = (fs1, none))
    (hrun2 : add_fv3_increments n incTmpl bkgTmpl incvars fs1 = (fs2, none))
    (ht : t ∈ List.range' 1 n) (hv : v ∈ incvars)
    (hsep : formatTile incTmpl t ∉ (List.range' 1 n).map (formatTile bkgTmpl))
    (hincf : lookupA fs (formatTile incTmpl t) = some incf)
    (hrstf : lookupA fs (formatTile bkgTmpl t) = some rstf)
    (hvi : lookupA incf v = some vinc) (hvb : lookupA rstf v = some vbkg)
    (hnz : ∃ i, ∃ _ : i < vbkg.data.length, ∃ h2 : i < vinc.data.length,
      vinc.data.get ⟨i, h2⟩ ≠ 0) :
    ∃ F2, lookupA fs2 (formatTile bkgTmpl t) = some F2 ∧
      (lookupA F2 v).map NCVar.data
        = some (List.zipWith (fun x y => x + 2 * y) vbkg.data vinc.data) ∧
      (lookupA F2 v).map NCVar.data
        ≠ some (List.zipWith (· + ·) vbkg.data vinc.data) := by
  obtain ⟨incf2, rstf2, hinc2, hbkg2, hsnd2, hfin2⟩ :=
    applyTiles_ok_char incTmpl bkgTmpl incvars (List.range' 1 n) fs fs1 hd hrun1 t ht
  rw [hincf] at hinc2
  rw [hrstf] at hbkg2
  injection hinc2 with he1
  injection hbkg2 with he2
  subst he1
  subst he2
  have hall1 := processVars_ok_all incf incvars rstf hsnd2
  obtain ⟨-, hchar1⟩ := processVars_char incf incvars rstf hnd hall1
  have hF1v : lookupA (processVars incf rstf incvars).1 v = some (appliedVar vbkg vinc) := by
    rw [hchar1 v]
    unfold appliedFileVar
    simp [hv, hvi, hvb]
  have hincfs1 : lookupA fs1 (formatTile incTmpl t) = some incf := by
    have hfr := applyTiles_frame incTmpl bkgTmpl incvars (List.range' 1 n) fs
      (formatTile incTmpl t) hsep
    have hrun1' : applyTiles incTmpl bkgTmpl incvars fs (List.range' 1 n)
        = (fs1, none) := hrun1
    rw [hrun1'] at hfr
    rw [hfr]
    exact hincf
  obtain ⟨incf3, rstf3, hinc3, hbkg3, hsnd3, hfin3⟩ :=
    applyTiles_ok_char incTmpl bkgTmpl incvars (List.range' 1 n) fs1 fs2 hd hrun2 t ht
  rw [hincfs1] at hinc3
  rw [hfin2] at hbkg3
  injection hinc3 with he3
  injection hbkg3 with he4
  subst he3
  subst he4
  have hall2 := processVars_ok_all incf incvars (processVars incf rstf incvars).1 hsnd3
  obtain ⟨-, hchar2⟩ := processVars_char incf incvars
    (processVars incf rstf incvars).1 hnd hall2
  refine ⟨(processVars incf (processVars incf rstf incvars).1 incvars).1, hfin3, ?_⟩
  have hF2v : lookupA (processVars incf (processVars incf rstf incvars).1 incvars).1 v
      = some (appliedVar (appliedVar vbkg vinc) vinc) := by
    rw [hchar2 v]
    unfold appliedFileVar
    simp [hv, hvi, hF1v]
  rw [hF2v]
  have hdata : (appliedVar (appliedVar vbkg vinc) vinc).data
      = List.zipWith (fun x y => x + 2 * y) vbkg.data vinc.data := by
    simp [appliedVar, zipWith_add_twice]
  constructor
  · rw [Option.map_some']
    exact congrArg some hdata
  · rw [Option.map_some']
    intro hcontra
    injection hcontra with he5
    rw [hdata] at he5
    exact zipWith_double_ne vbkg.data vinc.data hnz he5

/-- Claim C10 (exception scope of the checksum deletion): given a
variable present in both files with matching shapes, the summed data is
written in every outcome; when the deletion of the checksum attribute
raises, the exception is absorbed exactly when its kind is
`AttributeError` or `RuntimeError`, and any other kind propagates as an
uncaught exception with the written file persisted. -/
theorem processVar_delete_exception_scope
    {incf rst : NCFile} {v : String} {vinc vbkg : NCVar}
    (hvi : lookupA incf v = some vinc) (hvb : lookupA rst v = some vbkg)
    (hsh : vbkg.shape = vinc.shape) :
    (lookupA (processVar incf rst v).1 v).map NCVar.data
      = some (List.zipWith (· + ·) vbkg.data vinc.data) ∧
    ∀ c, delncattrChecksum { vbkg with data := List.zipWith (· + ·) vbkg.data vinc.data }
        = .error c →
      ((processVar incf rst v).2 = none ↔ caughtExc c = true) ∧
      (caughtExc c = false →
        processVar incf rst v
          = (setA rst v { vbkg with data := List.zipWith (· + ·) vbkg.data vinc.data },
             some (.uncaught c))) := by
  by_cases hok : ∀ c, vbkg.delBroken = some c → caughtExc c = true
  · have hpv := processVar_ok hvi hvb hsh hok
    constructor
    · rw [hpv]
      simp [lookupA_setA, hvb, appliedVar]
    · intro c hc
      have hcc : caughtExc c = true := by
        cases hdb : vbkg.delBroken with
        | none =>
          cases hcs : vbkg.checksum with
          | some s => unfold delncattrChecksum at hc; simp [hdb, hcs] at hc
          | none =>
            unfold delncattrChecksum at hc
            simp only [hdb, hcs] at hc
            injection hc with he
            rw [← he]
            rfl
        | some c' =>
          unfold delncattrChecksum at hc
          simp only [hdb] at hc
          injection hc with he
          rw [← he]
          exact hok c' hdb
      refine ⟨⟨fun _ => hcc, fun _ => by rw [hpv]⟩, ?_⟩
      intro hcf
      rw [hcf] at hcc
      exact Bool.noConfusion hcc
  · push_neg at hok
    obtain ⟨c0, hdb, hc0⟩ := hok
    have hc0' : caughtExc c0 = false := by
      revert hc0; cases caughtExc c0 <;> simp
    have hd : delncattrChecksum
        { vbkg with data := List.zipWith (· + ·) vbkg.data vinc.data } = .error c0 := by
      unfold delncattrChecksum; simp [hdb]
    have hpv := processVar_uncaught hvi hvb hsh hd hc0'
    constructor
    · rw [hpv]
      simp [lookupA_setA, hvb]
    · intro c hc
      rw [hd] at hc
      injection hc with he
      subst he
      refine ⟨⟨?_, ?_⟩, fun _ => hpv⟩
      · intro hnone
        rw [hpv] at hnone
        exact Option.noConfusion hnone
      · intro hcc
        rw [hcc] at hc0'
        exact Bool.noConfusion hc0'

/-- Witness for claim C1 on the concrete two-tile filesystem: the run
succeeds and tile 1's tracer ends at `[10, 20] + [5, -5] = [15, 15]`. -/
theorem add_fv3_increments_additivity_witness :
    add_fv3_increments 2 itW btW varsW fsW = (fsW1, none) ∧
    ∃ F, lookupA fsW1 (formatTile btW 1) = some F ∧
      (lookupA F vTracer).map NCVar.data
        = some (List.zipWith (· + ·) bkgVar1.data incVar1.data) :=
  ⟨by decide,
   add_fv3_increments_additivity
     (show (List.range' 1 2).Pairwise (tpDisj itW btW) by decide)
     (show varsW.Nodup by decide)
     (show add_fv3_increments 2 itW btW varsW fsW = (fsW1, none) by decide)
     (show (1 : Nat) ∈ List.range' 1 2 by decide)
     (show vTracer ∈ varsW by decide)
     (show lookupA fsW (formatTile itW 1) = some incF1 by decide)
     (show lookupA fsW (formatTile btW 1) = some bkgF1 by decide)
     (show lookupA incF1 vTracer = some incVar1 by decide)
     (show lookupA bkgF1 vTracer = some bkgVar1 by decide)⟩

/-- Witness for claim C2 on a background variable with no checksum
attribute: the step still succeeds with the correct sums. -/
theorem processVar_checksum_tolerance_witness :
    bkgVar2.checksum = none ∧
    processVar incF2 bkgF2 vTracer
      = (setA bkgF2 vTracer (appliedVar bkgVar2 incVar2), none) ∧
    (appliedVar bkgVar2 incVar2).data = List.zipWith (· + ·) bkgVar2.data incVar2.data ∧
    (bkgVar2.delBroken = none → (appliedVar bkgVar2 incVar2).checksum = none) :=
  ⟨by decide,
   processVar_checksum_tolerance
     (show lookupA incF2 vTracer = some incVar2 by decide)
     (show lookupA bkgF2 vTracer = some bkgVar2 by decide)
     (by decide) (Or.inl (by decide))⟩

/-- Witness for claim C3: requesting `tracer` then `humidity` when the
increment file lacks `humidity` raises `VariableNotFoundError` with
`tracer` already updated. -/
theorem add_fv3_increments_missing_var_witness :
    add_fv3_increments 1 itW btW [vTracer, vHum] fsW
      = (setA fsW (formatTile btW 1) (processVars incF1 bkgF1 [vTracer]).1,
         some .variableNotFoundError) ∧
    ∀ u, lookupA (processVars incF1 bkgF1 [vTracer]).1 u
      = appliedFileVar incF1 bkgF1 [vTracer] u :=
  add_fv3_increments_missing_var
    (show List.range' 1 1 = [] ++ 1 :: [] from rfl)
    (show applyTiles itW btW [vTracer, vHum] fsW [] = (fsW, none) from rfl)
    (show lookupA fsW (formatTile itW 1) = some incF1 by decide)
    (show lookupA fsW (formatTile btW 1) = some bkgF1 by decide)
    (show ([vTracer, vHum] : List String) = [vTracer] ++ vHum :: [] from rfl)
    (by decide) (by decide)
    (Or.inl (show lookupA incF1 vHum = none by decide))

/-- Witness for claim C4 on the concrete two-tile filesystem: the
variable outside the list and all non-checksum metadata are unchanged. -/
theorem add_fv3_increments_noninterference_witness :
    add_fv3_increments 2 itW btW varsW fsW = (fsW1, none) ∧
    ∃ F, lookupA fsW1 (formatTile btW 1) = some F ∧
      (∀ u, u ∉ varsW → lookupA F u = lookupA bkgF1 u) ∧
      (∀ u, (lookupA F u).map NCVar.meta = (lookupA bkgF1 u).map NCVar.meta ∧
            (lookupA F u).map NCVar.shape = (lookupA bkgF1 u).map NCVar.shape) :=
  ⟨by decide,
   add_fv3_increments_noninterference
     (show (List.range' 1 2).Pairwise (tpDisj itW btW) by decide)
     (show varsW.Nodup by decide)
     (show add_fv3_increments 2 itW btW varsW fsW = (fsW1, none) by decide)
     (show (1 : Nat) ∈ List.range' 1 2 by decide)
     (show lookupA fsW (formatTile itW 1) = some incF1 by decide)
     (show lookupA fsW (formatTile btW 1) = some bkgF1 by decide)⟩

/-- Witness for claim C5: with tile 2's increment file missing, the run
fails with `FileAccessError` after tile 1 was updated and everything else
is untouched. -/
theorem add_fv3_increments_missing_file_witness :
    add_fv3_increments 2 itW btW varsW fsC = (fsC1, some .fileAccessError) ∧
    ∀ p, p ∉ ([1] : List Nat).map (formatTile btW) → lookupA fsC1 p = lookupA fsC p :=
  add_fv3_increments_missing_file
    (show List.range' 1 2 = [1] ++ 2 :: [] from rfl)
    (show applyTiles itW btW varsW fsC [1] = (fsC1, none) by decide)
    (Or.inl (show lookupA fsC1 (formatTile itW 2) = none by decide))

/-- Witness for claim C6: a `[2]`-shaped background against a
`[3]`-shaped increment raises `ShapeMismatchError` with the background
variable unchanged. -/
theorem add_fv3_increments_shape_mismatch_witness :
    add_fv3_increments 1 itW btW varsW fsS
      = (setA fsS (formatTile btW 1) (processVars incFS bkgFS []).1,
         some .shapeMismatchError) ∧
    lookupA (processVars incFS bkgFS []).1 vTracer = some bkgVarS ∧
    ∀ u, lookupA (processVars incFS bkgFS []).1 u = appliedFileVar incFS bkgFS [] u :=
  add_fv3_increments_shape_mismatch
    (show List.range' 1 1 = [] ++ 1 :: [] from rfl)
    (show applyTiles itW btW varsW fsS [] = (fsS, none) from rfl)
    (show lookupA fsS (formatTile itW 1) = some incFS by decide)
    (show lookupA fsS (formatTile btW 1) = some bkgFS by decide)
    (show varsW = [] ++ vTracer :: [] from rfl)
    (by decide) (by decide)
    (show lookupA incFS vTracer = some incVarS by decide)
    (show lookupA bkgFS vTracer = some bkgVarS by decide)
    (by decide)

/-- Witness for claim C7 on the concrete two-tile filesystem. -/
theorem add_fv3_increments_increment_readonly_witness :
    (∀ p, p ∉ (List.range' 1 2).map (formatTile btW) →
      lookupA (add_fv3_increments 2 itW btW varsW fsW).1 p = lookupA fsW p) ∧
    ∀ t ∈ List.range' 1 2,
      lookupA (add_fv3_increments 2 itW btW varsW fsW).1 (formatTile itW t)
        = lookupA fsW (formatTile itW t) :=
  add_fv3_increments_increment_readonly (by decide)

/-- Witness for the amended claim C8: processing the two tiles in the
order `[2, 1]` yields the same final filesystem as the sequential run. -/
theorem add_fv3_increments_tile_order_witness :
    applyTiles itW btW varsW fsW [2, 1] = (fsW1, none) :=
  add_fv3_increments_tile_order (by decide) (by decide)
    (show add_fv3_increments 2 itW btW varsW fsW = (fsW1, none) by decide)

/-- Counterexample to claim C8 as stated: on a filesystem with disjoint
tile file pairs but a missing tile-2 increment file, the order `[2, 1]`
leaves a different final state than the sequential order `[1, 2]` (tile 1
is updated in one and untouched in the other), so permutations do not
always yield the same final state when a tile fails. -/
theorem add_fv3_increments_tile_order_counterexample :
    ([2, 1] : List Nat).Perm (List.range' 1 2) ∧
    (List.range' 1 2).Pairwise (tpDisj itW btW) ∧
    applyTiles itW btW varsW fsC (List.range' 1 2)
      = add_fv3_increments 2 itW btW varsW fsC ∧
    applyTiles itW btW varsW fsC [2, 1] ≠ add_fv3_increments 2 itW btW varsW fsC :=
  ⟨by decide, by decide, rfl, by decide⟩

/-- Witness for claim C9: two runs on the concrete filesystem leave tile
1's tracer at `[10, 20] + 2 * [5, -5] = [20, 10]`, different from the
single-run value `[15, 15]`. -/
theorem add_fv3_increments_not_idempotent_witness :
    add_fv3_increments 2 itW btW varsW fsW = (fsW1, none) ∧
    add_fv3_increments 2 itW btW varsW fsW1 = (fsW2, none) ∧
    ∃ F2, lookupA fsW2 (formatTile btW 1) = some F2 ∧
      (lookupA F2 vTracer).map NCVar.data
        = some (List.zipWith (fun x y => x + 2 * y) bkgVar1.data incVar1.data) ∧
      (lookupA F2 vTracer).map NCVar.data
        ≠ some (List.zipWith (· + ·) bkgVar1.data incVar1.data) :=
  ⟨by decide, by decide,
   add_fv3_increments_not_idempotent
     (show (List.range' 1 2).Pairwise (tpDisj itW btW) by decide)
     (show varsW.Nodup by decide)
     (show add_fv3_increments 2 itW btW varsW fsW = (fsW1, none) by decide)
     (show add_fv3_increments 2 itW btW varsW fsW1 = (fsW2, none) by decide)
     (show (1 : Nat) ∈ List.range' 1 2 by decide)
     (show vTracer ∈ varsW by decide)
     (show formatTile itW 1 ∉ (List.range' 1 2).map (formatTile btW) by decide)
     (show lookupA fsW (formatTile itW 1) = some incF1 by decide)
     (show lookupA fsW (formatTile btW 1) = some bkgF1 by decide)
     (show lookupA incF1 vTracer = some incVar1 by decide)
     (show lookupA bkgF1 vTracer = some bkgVar1 by decide)
     ⟨0, by decide, by decide, by decide⟩⟩

/-- Witness for claim C10 on a variable whose checksum deletion raises an
exception kind outside the absorbed classes: the sum is written and the
exception propagates uncaught. -/
theorem processVar_delete_exception_scope_witness :
    (lookupA (processVar incFX bkgFX vTracer).1 vTracer).map NCVar.data
      = some (List.zipWith (· + ·) bkgVarX.data incVarX.data) ∧
    ∀ c, delncattrChecksum
        { bkgVarX with data := List.zipWith (· + ·) bkgVarX.data incVarX.data }
        = .error c →
      ((processVar incFX bkgFX vTracer).2 = none ↔ caughtExc c = true) ∧
      (caughtExc c = false →
        processVar incFX bkgFX vTracer
          = (setA bkgFX vTracer
              { bkgVarX with data := List.zipWith (· + ·) bkgVarX.data incVarX.data },
             some (.uncaught c))) :=
  processVar_delete_exception_scope
    (show lookupA incFX vTracer = some incVarX by decide)
    (show lookupA bkgFX vTracer = some bkgVarX by decide)
    (by decide)
